import Mathlib

/-!
Verification of the identifier-space crawler in `direct-race-scraper.py`
(repository `keiba_script`).

The Python source is shallowly embedded below:

* Python decimal rendering `str(n)`, padding `str(n).zfill(2)`, parsing
  `int(s)`, slicing `s[a:b]`, `s.strip()` and `s.startswith(pre)` become
  executable Lean functions on `String`/`List Char`.
* The probe `is_valid_race` becomes a total function on an explicit
  model of the session's behaviour (`ProbeOutcome`); the `try/except`
  block becomes an `Except` value that the wrapper collapses to `Bool`,
  exactly as the source collapses every exception to `False`.
* The traversal `generate_race_ids_efficiently` becomes structural
  recursion over the concrete loop ranges (`range(1,7)`, `range(2,13)`),
  returning both the list of probed identifiers (the oracle-call trace)
  and the list of emitted (`valid_race_ids`) identifiers.
* The scheduler `scrape_races_by_id_pattern_efficient` (progress-file
  load, the implicit single-place reset, the skip/process loop) and the
  `--reset_progress` branch of `main` become list-processing functions.

Files are modelled as lists of entry strings (one entry per line; the
trailing `"\n"` written by each append and removed by `line.strip()` on
load is the file-format codec and is left implicit where noted).
-/

namespace KeibaScraper

/-! ### Python string primitives -/

/-- Decimal digits of `n`, most significant first, as produced by Python
`str(n)` for a non-negative integer.  The first argument is structural
fuel; `n + 1` is always sufficient since `n / 10 < n` for `n ≥ 10`. -/
def toDecimalAux (fuel : Nat) (n : Nat) : List Char :=
  match fuel with
  | 0 => []
  | fuel + 1 =>
    if n < 10 then [Nat.digitChar n]
    else toDecimalAux fuel (n / 10) ++ [Nat.digitChar (n % 10)]

/-- Python `str(n)` for a non-negative integer `n`. -/
def pyStr (n : Nat) : String := ⟨toDecimalAux (n + 1) n⟩

/-- Python `str(n).zfill(2)`: left-pad the decimal rendering to width 2. -/
def zfill2 (n : Nat) : String := if n < 10 then "0" ++ pyStr n else pyStr n

/-- Numeric value of a decimal digit character. -/
def charVal (c : Char) : Nat := c.toNat - 48

/-- Decimal value of a digit list (the computation done by Python
`int(s)` on a string of digits). -/
def parseNum (l : List Char) : Nat := l.foldl (fun acc c => 10 * acc + charVal c) 0

/-- Python `int(s)` on a digit string. -/
def pyInt (s : String) : Nat := parseNum s.data

/-- Python slicing `s[a:b]` (for `a ≤ b`). -/
def pySlice (s : String) (a b : Nat) : String := ⟨(s.data.drop a).take (b - a)⟩

/-- Python `s.strip()` restricted to whitespace stripping. -/
def pyStrip (s : String) : String :=
  ⟨((s.data.dropWhile Char.isWhitespace).reverse.dropWhile Char.isWhitespace).reverse⟩

/-- Python `s.startswith(pre)`. -/
def startswith (s pre : String) : Bool :=
  decide (s.data.take pre.data.length = pre.data)

/-! ### Basic lemmas about the decimal rendering -/

theorem toDecimalAux_fuel_irrel :
    ∀ (f g n : Nat), n < f → n < g → toDecimalAux f n = toDecimalAux g n := by
  intro f
  induction f with
  | zero => intro g n h; omega
  | succ f ih =>
    intro g n hf hg
    match g, hg with
    | g + 1, _ =>
      show toDecimalAux (f + 1) n = toDecimalAux (g + 1) n
      unfold toDecimalAux
      by_cases h10 : n < 10
      · simp [h10]
      · simp only [h10, if_false]
        have hdiv : n / 10 < n := Nat.div_lt_self (by omega) (by omega)
        rw [ih (g := g) (n := n / 10) (by omega) (by omega)]

theorem parseNum_append_singleton (l : List Char) (c : Char) :
    parseNum (l ++ [c]) = 10 * parseNum l + charVal c := by
  simp [parseNum]

theorem charVal_digitChar (k : Nat) (h : k < 10) :
    charVal (Nat.digitChar k) = k := by
  interval_cases k <;> rfl

theorem isDigit_digitChar (k : Nat) (h : k < 10) :
    (Nat.digitChar k).isDigit = true := by
  interval_cases k <;> rfl

theorem parseNum_toDecimalAux :
    ∀ (f n : Nat), n < f → parseNum (toDecimalAux f n) = n := by
  intro f
  induction f with
  | zero => intro n h; omega
  | succ f ih =>
    intro n hf
    unfold toDecimalAux
    by_cases h10 : n < 10
    · simp only [h10, if_true]
      simp [parseNum, charVal_digitChar n h10]
    · simp only [h10, if_false]
      rw [parseNum_append_singleton]
      have hdiv : n / 10 < n := Nat.div_lt_self (by omega) (by omega)
      rw [ih (n / 10) (by omega), charVal_digitChar _ (by omega)]
      omega

theorem mem_toDecimalAux_isDigit :
    ∀ (f n : Nat), n < f → ∀ c ∈ toDecimalAux f n, c.isDigit = true := by
  intro f
  induction f with
  | zero => intro n h; omega
  | succ f ih =>
    intro n hf c hc
    unfold toDecimalAux at hc
    by_cases h10 : n < 10
    · simp only [h10, if_true, List.mem_singleton] at hc
      subst hc; exact isDigit_digitChar n h10
    · simp only [h10, if_false, List.mem_append, List.mem_singleton] at hc
      rcases hc with hc | hc
      · have hdiv : n / 10 < n := Nat.div_lt_self (by omega) (by omega)
        exact ih (n / 10) (by omega) c hc
      · subst hc; exact isDigit_digitChar _ (by omega)

theorem pyInt_pyStr (n : Nat) : pyInt (pyStr n) = n :=
  parseNum_toDecimalAux (n + 1) n (Nat.lt_succ_self n)

theorem pyStr_data (n : Nat) : (pyStr n).data = toDecimalAux (n + 1) n := rfl

theorem pyStr_length_one (n : Nat) (h : n < 10) : (pyStr n).data.length = 1 := by
  simp [pyStr, toDecimalAux, h]

theorem pyStr_length_step (n : Nat) (h : 10 ≤ n) :
    (pyStr n).data.length = (pyStr (n / 10)).data.length + 1 := by
  have hdiv : n / 10 < n := Nat.div_lt_self (by omega) (by omega)
  have h1 : toDecimalAux (n + 1) n
      = toDecimalAux n (n / 10) ++ [Nat.digitChar (n % 10)] := by
    conv_lhs => rw [toDecimalAux]
    simp [show ¬ n < 10 by omega]
  have h2 : toDecimalAux n (n / 10) = toDecimalAux (n / 10 + 1) (n / 10) :=
    toDecimalAux_fuel_irrel n (n / 10 + 1) (n / 10) (by omega) (by omega)
  rw [h2] at h1
  simp [pyStr, h1]

theorem pyStr_length_two (n : Nat) (h1 : 10 ≤ n) (h2 : n < 100) :
    (pyStr n).data.length = 2 := by
  rw [pyStr_length_step n h1, pyStr_length_one (n / 10) (by omega)]

theorem pyStr_length_four (n : Nat) (h1 : 1000 ≤ n) (h2 : n < 10000) :
    (pyStr n).data.length = 4 := by
  rw [pyStr_length_step n (by omega), pyStr_length_step (n / 10) (by omega),
      pyStr_length_two (n / 10 / 10) (by omega) (by omega)]

theorem pyStr_digits (n : Nat) : ∀ c ∈ (pyStr n).data, c.isDigit = true :=
  mem_toDecimalAux_isDigit (n + 1) n (Nat.lt_succ_self n)

/-! ### Lemmas about `zfill2` -/

theorem zfill2_length (k : Nat) (h : k < 100) : (zfill2 k).data.length = 2 := by
  unfold zfill2
  by_cases h10 : k < 10
  · simp only [h10, if_true]
    have : ("0" ++ pyStr k).data = '0' :: (pyStr k).data := by
      simp [String.data_append, String.instAppend]
    simp [this, pyStr_length_one k h10]
  · simp only [h10, if_false]
    exact pyStr_length_two k (by omega) h

theorem pyInt_zfill2 (k : Nat) (h : k < 100) : pyInt (zfill2 k) = k := by
  unfold zfill2
  by_cases h10 : k < 10
  · simp only [h10, if_true]
    have hd : ("0" ++ pyStr k).data = '0' :: (pyStr k).data := by
      simp [String.data_append, String.instAppend]
    show parseNum ("0" ++ pyStr k).data = k
    rw [hd]
    have : (pyStr k).data = [Nat.digitChar k] := by
      simp [pyStr, toDecimalAux, h10]
    simp [this, parseNum, charVal, charVal_digitChar k h10]
    have := charVal_digitChar k h10
    simp [charVal] at this
    omega
  · simp only [h10, if_false]
    exact pyInt_pyStr k

theorem zfill2_inj (k k' : Nat) (hk : k < 100) (hk' : k' < 100)
    (h : zfill2 k = zfill2 k') : k = k' := by
  have := pyInt_zfill2 k hk
  rw [h, pyInt_zfill2 k' hk'] at this
  omega

theorem zfill2_digits (k : Nat) (h : k < 100) :
    ∀ c ∈ (zfill2 k).data, c.isDigit = true := by
  unfold zfill2
  by_cases h10 : k < 10
  · simp only [h10, if_true]
    have hd : ("0" ++ pyStr k).data = '0' :: (pyStr k).data := by
      simp [String.data_append, String.instAppend]
    rw [hd]
    intro c hc
    rcases List.mem_cons.mp hc with hc | hc
    · subst hc; rfl
    · exact pyStr_digits k c hc
  · simp only [h10, if_false]
    exact pyStr_digits k

/-! ### The existence probe `is_valid_race` (source lines 75–116)

The probe issues `session.get(url)`, decodes the body as EUC-JP, and
parses the HTML.  Its observable interaction with the outside world is
modelled by `ProbeOutcome`: either some step of the `try` block raises
an exception, or a page is obtained, characterised by the only features
the source inspects: the two "race does not exist" marker strings, the
presence of `table.race_table_01`, and the number of `tr` rows in it. -/

/-- The step of the `try` block at which an exception can be raised. -/
inductive ProbeStage where
  | httpGet
  | decodeBody
  | parseHtml
deriving DecidableEq, Repr

/-- The behaviour of the underlying session for one probe. -/
inductive ProbeOutcome where
  /-- Some step of the `try` block raises an exception. -/
  | raises (stage : ProbeStage)
  /-- A page is obtained.  `noRaceInfoMsg` / `nonexistentIdMsg` model the
  two "not found" marker substrings; `raceTable = none` models a missing
  `table.race_table_01`, `some rows` a table with `rows` `tr` elements. -/
  | page (noRaceInfoMsg nonexistentIdMsg : Bool) (raceTable : Option Nat)
deriving DecidableEq, Repr

/-- The body of the `try` block of `is_valid_race` (source lines 91–113):
an exception propagates as `.error`, otherwise the checks run in source
order and return a boolean. -/
def is_valid_race_body : ProbeOutcome → Except ProbeStage Bool
  | .raises stage => .error stage
  | .page noRaceInfoMsg nonexistentIdMsg raceTable =>
    if noRaceInfoMsg || nonexistentIdMsg then .ok false
    else
      match raceTable with
      | none => .ok false
      | some rows => if rows ≤ 1 then .ok false else .ok true

/-- The probe `is_valid_race` (source lines 75–116): the `except Exception` handler
(lines 114–116) collapses every exception to `False`. -/
def is_valid_race (outcome : ProbeOutcome) : Bool :=
  match is_valid_race_body outcome with
  | .ok b => b
  | .error _ => false

/-! ### Identifier construction (source lines 152, 167, 177, 190)

`race_id = f"{year_str}{place_code}{str(kai).zfill(2)}{str(day).zfill(2)}{str(race_num).zfill(2)}"`
(the literal `"01"` for day 1 in lines 152 and 167 equals `zfill2 1`). -/

def mkRaceId (year : Nat) (place : String) (kai day race : Nat) : String :=
  pyStr year ++ place ++ zfill2 kai ++ zfill2 day ++ zfill2 race

/-- Place codes: the keys of `PLACE_DICT` (source lines 68–72). -/
def PLACE_CODES : List String :=
  ["01", "02", "03", "04", "05", "06", "07", "08", "09", "10"]

/-- Loop range `range(2, 13)` for race numbers 2..12. -/
def races2to12 : List Nat := [2, 3, 4, 5, 6, 7, 8, 9, 10, 11, 12]

/-- Loop range `range(2, 13)` for days 2..12. -/
def days2to12 : List Nat := [2, 3, 4, 5, 6, 7, 8, 9, 10, 11, 12]

/-- Loop range `range(1, 7)` for meetings 1..6. -/
def meetings1to6 : List Nat := [1, 2, 3, 4, 5, 6]

/-- The race identifiers for races 2..12 of one day. -/
def raceIdsFrom2 (year : Nat) (place : String) (kai day : Nat) : List String :=
  races2to12.map (fun race_num => mkRaceId year place kai day race_num)

/-! ### The pruning traversal `generate_race_ids_efficiently`
(source lines 119–198)

Each function returns the pair `(probed identifiers, emitted identifiers)`
in traversal order; the oracle `o` maps a race identifier to the session
behaviour observed when probing it, so `is_valid_race (o id)` is exactly
the boolean the source branches on. -/

/-- The inner race loop (`for race_num in range(2, 13)`, source lines
166–172 and 189–195): probe each id; on the first invalid one `break`
(the failing probe is issued but nothing further). -/
def probeRaces (o : String → ProbeOutcome) : List String → List String × List String
  | [] => ([], [])
  | race_id :: rest =>
    if is_valid_race (o race_id) then
      let r := probeRaces o rest
      (race_id :: r.1, race_id :: r.2)
    else ([race_id], [])

/-- The day loop (`for day in range(2, 13)`, source lines 175–195):
probe the day's first race; if invalid, `break` out of the day loop
(skip to the next meeting); if valid, emit it, run the race loop for
races 2..12, and continue with the next day. -/
def probeDays (o : String → ProbeOutcome) (year : Nat) (place : String)
    (kai : Nat) : List Nat → List String × List String
  | [] => ([], [])
  | day :: rest =>
    let first_race_of_day := mkRaceId year place kai day 1
    if is_valid_race (o first_race_of_day) then
      let rr := probeRaces o (raceIdsFrom2 year place kai day)
      let dr := probeDays o year place kai rest
      (first_race_of_day :: (rr.1 ++ dr.1), first_race_of_day :: (rr.2 ++ dr.2))
    else ([first_race_of_day], [])

/-- The meeting loop (`for kai in range(1, 7)`, source lines 150–195):
probe `(kai, day 1, race 1)`; if invalid, `break` out of the meeting
loop for this place; if valid, emit it, run the race loop for day 1,
then the day loop for days 2..12, and continue with the next meeting. -/
def probeMeetings (o : String → ProbeOutcome) (year : Nat) (place : String) :
    List Nat → List String × List String
  | [] => ([], [])
  | kai :: rest =>
    let first_day_first_race := mkRaceId year place kai 1 1
    if is_valid_race (o first_day_first_race) then
      let rr := probeRaces o (raceIdsFrom2 year place kai 1)
      let dd := probeDays o year place kai days2to12
      let mm := probeMeetings o year place rest
      (first_day_first_race :: (rr.1 ++ (dd.1 ++ mm.1)),
       first_day_first_race :: (rr.2 ++ (dd.2 ++ mm.2)))
    else ([first_day_first_race], [])

/-- The traversal `generate_race_ids_efficiently` (source lines 119–198): the returned
`valid_race_ids` list.  `places = None` in the source becomes the caller
passing all of `PLACE_CODES`. -/
def generate_race_ids_efficiently (o : String → ProbeOutcome) (year : Nat)
    (places : List String) : List String :=
  (places.map (fun place_code => (probeMeetings o year place_code meetings1to6).2)).flatten

/-- The probe trace of `generate_race_ids_efficiently`: every identifier
passed to `is_valid_race`, in call order. -/
def generateProbes (o : String → ProbeOutcome) (year : Nat)
    (places : List String) : List String :=
  (places.map (fun place_code => (probeMeetings o year place_code meetings1to6).1)).flatten

/-! ### Concrete oracles used as witnesses -/

/-- A page holding a race result table with 10 data rows: `Present`. -/
def presentPage : ProbeOutcome := .page false false (some 11)

/-- A page carrying the "no race information" marker: `Absent`. -/
def absentPage : ProbeOutcome := .page true false none

/-- The end-to-end scenario oracle (§8 of the spec): for year 2024 at
place `"05"`, meeting 1 day 1 races 1–5 exist and nothing else does. -/
def c4oracle : String → ProbeOutcome := fun race_id =>
  if race_id ∈ ["202405010101", "202405010102", "202405010103",
                "202405010104", "202405010105"] then presentPage
  else absentPage

/-- An oracle in which the probe of `(place 05, meeting 1, day 1, race 1)`
raises a transient exception while every other identifier has a
well-formed results page: a simulated transient failure at a pruning
decision point. -/
def c1oracle : String → ProbeOutcome := fun race_id =>
  if race_id = "202405010101" then .raises .httpGet else presentPage

/-! ### The scheduler `scrape_races_by_id_pattern_efficient`
(source lines 669–821)

The progress file is modelled as `Option (List String)`: `none` when
`os.path.exists(progress_file)` is false, otherwise the list of entries
(one per line; each `Append` writes `f"{race_id}\n"` and the load strips
the newline back off, so entries are stored without it). -/

/-- Progress-file load plus the implicit single-place reset (source
lines 699–728).  Returns `(skip_ids, progress-file content after the
prelude)`.  When exactly one place is requested and the file holds
entries prefixed by `str(year) + place`, those entries are dropped from
`skip_ids` and the file is rewritten to the remaining entries. -/
def loadAndReset (year : Nat) (places : List String)
    (progressFile : Option (List String)) : List String × Option (List String) :=
  match progressFile with
  | none => ([], none)
  | some lines =>
    let skip_ids := lines
    if places.length = 1 then
      let pre := pyStr year ++ places.headD ""
      let place_specific_ids := skip_ids.filter (fun race_id => startswith race_id pre)
      let other_ids := skip_ids.filter (fun race_id => ¬ startswith race_id pre)
      if 0 < place_specific_ids.length then (other_ids, some other_ids)
      else (skip_ids, some lines)
    else (skip_ids, some lines)

/-- The processing loop (source lines 751–801): skip ids already in
`skip_ids`; otherwise fetch (`fetchOk id = true` models
`scrape_race_results` returning a dataframe, `false` a `None` result),
append the id to the progress file unconditionally, and stop once
`valid_count` reaches `max_races` (when set).  Returns the sequence of
ids appended to the progress file. -/
def processLoop (skip_ids : List String) (fetchOk : String → Bool)
    (max_races : Option Nat) : List String → Nat → List String
  | [], _ => []
  | race_id :: rest, valid_count =>
    if race_id ∈ skip_ids then
      processLoop skip_ids fetchOk max_races rest valid_count
    else
      let vc := if fetchOk race_id then valid_count + 1 else valid_count
      race_id ::
        (match max_races with
         | none => processLoop skip_ids fetchOk max_races rest vc
         | some m => if m ≤ vc then [] else processLoop skip_ids fetchOk max_races rest vc)

/-- Final progress-file content of an uninterrupted, uncapped run of
`scrape_races_by_id_pattern_efficient`. -/
def runFinal (o : String → ProbeOutcome) (fetchOk : String → Bool) (year : Nat)
    (places : List String) (progressFile : Option (List String)) : List String :=
  let lr := loadAndReset year places progressFile
  let valid_race_ids := generate_race_ids_efficiently o year places
  lr.2.getD [] ++ processLoop lr.1 fetchOk none valid_race_ids 0

/-- Progress-file content of a run interrupted after `k` appends of the
processing loop (the prelude rewrite has already happened on disk). -/
def runInterrupted (o : String → ProbeOutcome) (fetchOk : String → Bool) (year : Nat)
    (places : List String) (progressFile : Option (List String)) (k : Nat) :
    List String :=
  let lr := loadAndReset year places progressFile
  let valid_race_ids := generate_race_ids_efficiently o year places
  lr.2.getD [] ++ (processLoop lr.1 fetchOk none valid_race_ids 0).take k

/-- The probe trace of one run of `scrape_races_by_id_pattern_efficient`:
`generate_race_ids_efficiently` is invoked (source line 734) without
consulting `skip_ids`, so the trace does not depend on the progress
file. -/
def runProbeTrace (o : String → ProbeOutcome) (year : Nat)
    (places : List String) (progressFile : Option (List String)) : List String :=
  generateProbes o year places

/-! ### The `--reset_progress` rewrite in `main` (source lines 899–914) -/

/-- The extraction `place_code = race_id[4:6] if len(race_id) >= 6 else ""` applied to
the stripped line (source lines 907–908). -/
def placeCodeOfLine (line : String) : String :=
  let race_id := pyStrip line
  if 6 ≤ race_id.data.length then pySlice race_id 4 6 else ""

/-- Keep condition of the rewrite loop: `if place_code not in places`
(source line 910). -/
def resetKeepLine (places : List String) (line : String) : Bool :=
  ¬ places.contains (placeCodeOfLine line)

/-- The selective reset (source lines 899–914): the raw lines of the
backup file are filtered, keeping each line unchanged exactly when its
place code is not in `places`, and written back in order. -/
def resetProgressLines (places : List String) (lines : List String) : List String :=
  lines.filter (resetKeepLine places)

/-! ### Identifier decoding (source lines 308–311)

`place_code = race_id[4:6]`, `kai = int(race_id[6:8])`,
`day = int(race_id[8:10])`, `race_num = int(race_id[10:12])`; the year
is the remaining fixed-width field `race_id[0:4]`. -/

def decodeRaceId (race_id : String) : Nat × String × Nat × Nat × Nat :=
  (pyInt (pySlice race_id 0 4), pySlice race_id 4 6,
   pyInt (pySlice race_id 6 8), pyInt (pySlice race_id 8 10),
   pyInt (pySlice race_id 10 12))

/-! ### Structure of an encoded identifier -/

theorem string_eq_of_data {s t : String} (h : s.data = t.data) : s = t := by
  cases s; cases t; congr 1

theorem mkRaceId_data (y : Nat) (p : String) (k d r : Nat) :
    (mkRaceId y p k d r).data
      = (pyStr y).data ++ (p.data ++ ((zfill2 k).data ++ ((zfill2 d).data ++ (zfill2 r).data))) := by
  simp [mkRaceId, String.data_append, List.append_assoc]

theorem place_codes_length {p : String} (hp : p ∈ PLACE_CODES) :
    p.data.length = 2 := by
  fin_cases hp <;> rfl

theorem place_codes_digits {p : String} (hp : p ∈ PLACE_CODES) :
    ∀ c ∈ p.data, c.isDigit = true := by
  fin_cases hp <;> decide

/-- Recovering the five fixed-width fields of a 12-character identifier. -/
theorem pySlice_parts (s : String) (Y P A B C : List Char)
    (h : s.data = Y ++ (P ++ (A ++ (B ++ C))))
    (hY : Y.length = 4) (hP : P.length = 2) (hA : A.length = 2)
    (hB : B.length = 2) (hC : C.length = 2) :
    (pySlice s 0 4).data = Y ∧ (pySlice s 4 6).data = P
      ∧ (pySlice s 6 8).data = A ∧ (pySlice s 8 10).data = B
      ∧ (pySlice s 10 12).data = C := by
  refine ⟨?_, ?_, ?_, ?_, ?_⟩
  · show ((s.data.drop 0).take 4) = Y
    rw [List.drop_zero, h, List.take_left' hY]
  · show ((s.data.drop 4).take 2) = P
    rw [h, List.drop_left' hY, List.take_left' hP]
  · show ((s.data.drop 6).take 2) = A
    have h6 : s.data = (Y ++ P) ++ (A ++ (B ++ C)) := by rw [h]; simp [List.append_assoc]
    rw [h6, List.drop_left' (by simp [hY, hP]), List.take_left' hA]
  · show ((s.data.drop 8).take 2) = B
    have h8 : s.data = ((Y ++ P) ++ A) ++ (B ++ C) := by rw [h]; simp [List.append_assoc]
    rw [h8, List.drop_left' (by simp [hY, hP, hA]), List.take_left' hB]
  · show ((s.data.drop 10).take 2) = C
    have h10 : s.data = (((Y ++ P) ++ A) ++ B) ++ C := by rw [h]; simp [List.append_assoc]
    rw [h10, List.drop_left' (by simp [hY, hP, hA, hB]), ← hC, List.take_length]

theorem parseNum_eq_pyInt (s : String) : parseNum s.data = pyInt s := rfl

/-- Decoding inverts encoding for any 4-digit year, length-2 place code
and in-range numeric components. -/
theorem decode_mkRaceId (year : Nat) (place : String) (kai day race : Nat)
    (hy1 : 1000 ≤ year) (hy2 : year ≤ 9999) (hp : place.data.length = 2)
    (hk : kai < 100) (hd : day < 100) (hr : race < 100) :
    decodeRaceId (mkRaceId year place kai day race) = (year, place, kai, day, race) := by
  have hparts := pySlice_parts (mkRaceId year place kai day race)
    (pyStr year).data place.data (zfill2 kai).data (zfill2 day).data (zfill2 race).data
    (mkRaceId_data year place kai day race)
    (pyStr_length_four year hy1 (by omega)) hp
    (zfill2_length kai hk) (zfill2_length day hd) (zfill2_length race hr)
  obtain ⟨h0, h4, h6, h8, h10⟩ := hparts
  unfold decodeRaceId
  have e0 : pyInt (pySlice (mkRaceId year place kai day race) 0 4) = year := by
    show parseNum (pySlice (mkRaceId year place kai day race) 0 4).data = year
    rw [h0, parseNum_eq_pyInt, pyInt_pyStr]
  have e4 : pySlice (mkRaceId year place kai day race) 4 6 = place :=
    string_eq_of_data h4
  have e6 : pyInt (pySlice (mkRaceId year place kai day race) 6 8) = kai := by
    show parseNum (pySlice (mkRaceId year place kai day race) 6 8).data = kai
    rw [h6, parseNum_eq_pyInt, pyInt_zfill2 kai hk]
  have e8 : pyInt (pySlice (mkRaceId year place kai day race) 8 10) = day := by
    show parseNum (pySlice (mkRaceId year place kai day race) 8 10).data = day
    rw [h8, parseNum_eq_pyInt, pyInt_zfill2 day hd]
  have e10 : pyInt (pySlice (mkRaceId year place kai day race) 10 12) = race := by
    show parseNum (pySlice (mkRaceId year place kai day race) 10 12).data = race
    rw [h10, parseNum_eq_pyInt, pyInt_zfill2 race hr]
  rw [e0, e4, e6, e8, e10]

/-- Encoded identifiers with the same year are distinguished by their
components (the requested place has length 2; the other place string is
arbitrary). -/
theorem mkRaceId_inj (y : Nat) (p q : String) (k d r k' d' r' : Nat)
    (hp : p.data.length = 2)
    (hk : k < 100) (hd : d < 100) (hr : r < 100)
    (hk' : k' < 100) (hd' : d' < 100) (hr' : r' < 100)
    (h : mkRaceId y p k d r = mkRaceId y q k' d' r') :
    p = q ∧ k = k' ∧ d = d' ∧ r = r' := by
  have hdata : (mkRaceId y p k d r).data = (mkRaceId y q k' d' r').data := by rw [h]
  rw [mkRaceId_data, mkRaceId_data] at hdata
  have htail := List.append_cancel_left hdata
  have hlenq : q.data.length = 2 := by
    have := congrArg List.length htail
    simp only [List.length_append, zfill2_length k hk, zfill2_length d hd,
      zfill2_length r hr, zfill2_length k' hk', zfill2_length d' hd',
      zfill2_length r' hr'] at this
    omega
  have hPQ := List.append_inj htail (by rw [hp, hlenq])
  obtain ⟨hpq, htail2⟩ := hPQ
  have hA := List.append_inj htail2 (by rw [zfill2_length k hk, zfill2_length k' hk'])
  obtain ⟨hkk, htail3⟩ := hA
  have hB := List.append_inj htail3 (by rw [zfill2_length d hd, zfill2_length d' hd'])
  obtain ⟨hdd, htail4⟩ := hB
  refine ⟨string_eq_of_data hpq, ?_, ?_, ?_⟩
  · exact zfill2_inj k k' hk hk' (string_eq_of_data hkk)
  · exact zfill2_inj d d' hd hd' (string_eq_of_data hdd)
  · exact zfill2_inj r r' hr hr' (string_eq_of_data htail4)

/-! ### Claim theorems: C1, C4, C8, C10 -/

/-- C1: the claim states that a probe whose transport fails (an Unknown
verdict) is never treated as Absent: it must not stop the meeting/day
loop and must not prune.  The code violates this: `is_valid_race`
collapses the exception to `False` (source lines 114–116), and with an
oracle that raises only on `202405010101` while every other identifier
is Present, `generate_race_ids_efficiently` probes just that one
identifier, breaks the meeting loop for the place, and discovers
nothing — the transient failure pruned the whole year at the place. -/
theorem unknown_coerced_to_absent_bug :
    is_valid_race (c1oracle "202405010101") = false
    ∧ generateProbes c1oracle 2024 ["05"] = ["202405010101"]
    ∧ generate_race_ids_efficiently c1oracle 2024 ["05"] = [] := by decide

/-- C4: end-to-end scenario for year 2024, places = ["05"], with the
oracle Present on meeting 1 / day 1 / races 1–5 and Absent elsewhere:
the traversal discovers exactly those 5 identifiers, issues exactly 8
oracle calls, and issues none for meetings 3–6. -/
theorem end_to_end_scenario :
    generate_race_ids_efficiently c4oracle 2024 ["05"]
      = ["202405010101", "202405010102", "202405010103",
         "202405010104", "202405010105"]
    ∧ generateProbes c4oracle 2024 ["05"]
      = ["202405010101", "202405010102", "202405010103", "202405010104",
         "202405010105", "202405010106", "202405010201", "202405020101"]
    ∧ (generateProbes c4oracle 2024 ["05"]).length = 8
    ∧ (∀ kai ∈ [3, 4, 5, 6], ∀ day ∈ [1, 2, 3, 4, 5, 6, 7, 8, 9, 10, 11, 12],
        ∀ race ∈ [1, 2, 3, 4, 5, 6, 7, 8, 9, 10, 11, 12],
        mkRaceId 2024 "05" kai day race ∉ generateProbes c4oracle 2024 ["05"]) := by
  decide

/-- C8: for every in-range coordinate tuple (4-digit year, one of the 10
place codes, meeting 1..6, day 1..12, race 1..12), encoding yields a
12-ASCII-digit string and decoding its fixed-width fields yields the
original coordinates. -/
theorem race_id_roundtrip (year : Nat) (place : String) (kai day race : Nat)
    (hy1 : 1000 ≤ year) (hy2 : year ≤ 9999) (hp : place ∈ PLACE_CODES)
    (hk1 : 1 ≤ kai) (hk2 : kai ≤ 6) (hd1 : 1 ≤ day) (hd2 : day ≤ 12)
    (hr1 : 1 ≤ race) (hr2 : race ≤ 12) :
    (mkRaceId year place kai day race).length = 12
    ∧ (∀ c ∈ (mkRaceId year place kai day race).data, c.isDigit = true)
    ∧ decodeRaceId (mkRaceId year place kai day race) = (year, place, kai, day, race) := by
  have hplen : place.data.length = 2 := place_codes_length hp
  refine ⟨?_, ?_, ?_⟩
  · show (mkRaceId year place kai day race).data.length = 12
    rw [mkRaceId_data]
    simp only [List.length_append, pyStr_length_four year hy1 (by omega), hplen,
      zfill2_length kai (by omega), zfill2_length day (by omega),
      zfill2_length race (by omega)]
  · intro c hc
    rw [mkRaceId_data] at hc
    simp only [List.mem_append] at hc
    rcases hc with hc | hc | hc | hc | hc
    · exact pyStr_digits year c hc
    · exact place_codes_digits hp c hc
    · exact zfill2_digits kai (by omega) c hc
    · exact zfill2_digits day (by omega) c hc
    · exact zfill2_digits race (by omega) c hc
  · exact decode_mkRaceId year place kai day race hy1 hy2 hplen
      (by omega) (by omega) (by omega)

/-- Witness for C8 at `(2024, "05", 1, 2, 3)`. -/
theorem race_id_roundtrip_witness :
    (1000 ≤ 2024 ∧ 2024 ≤ 9999 ∧ "05" ∈ PLACE_CODES ∧ (1 ≤ 1 ∧ 1 ≤ 6)
      ∧ (1 ≤ 2 ∧ 2 ≤ 12) ∧ (1 ≤ 3 ∧ 3 ≤ 12))
    ∧ (mkRaceId 2024 "05" 1 2 3).length = 12
    ∧ decodeRaceId (mkRaceId 2024 "05" 1 2 3) = (2024, "05", 1, 2, 3) :=
  ⟨by decide,
   (race_id_roundtrip 2024 "05" 1 2 3 (by decide) (by decide) (by decide)
      (by decide) (by decide) (by decide) (by decide) (by decide) (by decide)).1,
   (race_id_roundtrip 2024 "05" 1 2 3 (by decide) (by decide) (by decide)
      (by decide) (by decide) (by decide) (by decide) (by decide) (by decide)).2.2⟩

/-- C10: `is_valid_race` is total — for every behaviour of the session
it returns a boolean, and every exception path (an exception raised at
the HTTP request, the decode, or the HTML parsing step) returns
`false`. -/
theorem is_valid_race_total (outcome : ProbeOutcome) :
    (is_valid_race outcome = true ∨ is_valid_race outcome = false)
    ∧ (∀ stage, is_valid_race_body outcome = .error stage →
        is_valid_race outcome = false) := by
  constructor
  · cases h : is_valid_race outcome
    · right; rfl
    · left; rfl
  · intro stage h
    unfold is_valid_race
    rw [h]

/-- Witness for C10 at a probe whose HTTP request raises. -/
theorem is_valid_race_total_witness :
    is_valid_race_body (.raises .httpGet) = .error .httpGet
    ∧ is_valid_race (.raises .httpGet) = false :=
  ⟨rfl, (is_valid_race_total (.raises .httpGet)).2 .httpGet rfl⟩

/-! ### Decomposition lemmas for the loop ranges -/

theorem races2to12_eq : races2to12 = List.range' 2 11 := by decide

theorem days2to12_eq : days2to12 = List.range' 2 11 := by decide

theorem meetings1to6_eq : meetings1to6 = List.range' 1 6 := by decide

theorem mem_range'_iff (a s n : Nat) : a ∈ List.range' s n ↔ s ≤ a ∧ a < s + n := by
  rw [List.mem_range']
  constructor
  · rintro ⟨i, hi, rfl⟩; omega
  · intro h; exact ⟨a - s, by omega, by omega⟩

/-- Splitting `range' s n` at an element `a`. -/
theorem range'_split (s n a : Nat) (h1 : s ≤ a) (h2 : a < s + n) :
    List.range' s n
      = List.range' s (a - s) ++ a :: List.range' (a + 1) (s + n - a - 1) := by
  have e1 := List.range'_append_1 s (a - s) (n - (a - s))
  rw [show s + (a - s) = a by omega, show n - (a - s) + (a - s) = n by omega] at e1
  rw [← e1]
  congr 1
  rw [show n - (a - s) = (s + n - a - 1) + 1 by omega, List.range'_succ]

/-- A `Nodup` list splits at a given element in at most one way. -/
theorem nodup_split_unique {α : Type} :
    ∀ {l pre1 suf1 pre2 suf2 : List α} {a : α}, l.Nodup →
      l = pre1 ++ a :: suf1 → l = pre2 ++ a :: suf2 →
      pre1 = pre2 ∧ suf1 = suf2 := by
  intro l pre1
  induction pre1 generalizing l with
  | nil =>
    intro suf1 pre2 suf2 a hnd h1 h2
    subst h1
    cases pre2 with
    | nil =>
      simp only [List.nil_append] at h2
      exact ⟨rfl, (List.cons.inj h2).2⟩
    | cons b pb =>
      simp only [List.nil_append, List.cons_append] at h2
      obtain ⟨hab, hsuf⟩ := List.cons.inj h2
      subst hab
      have : a ∈ suf1 := by rw [hsuf]; simp
      have hnotin : a ∉ suf1 := (List.nodup_cons.mp hnd).1
      exact absurd this hnotin
  | cons c pc ih =>
    intro suf1 pre2 suf2 a hnd h1 h2
    subst h1
    cases pre2 with
    | nil =>
      simp only [List.nil_append, List.cons_append] at h2
      obtain ⟨hca, hsuf⟩ := List.cons.inj h2
      have hmem : c ∈ pc ++ a :: suf1 := by rw [hca]; simp
      have hnotin : c ∉ pc ++ a :: suf1 := (List.nodup_cons.mp hnd).1
      exact absurd hmem hnotin
    | cons b pb =>
      simp only [List.cons_append] at h2
      obtain ⟨hcb, htl⟩ := List.cons.inj h2
      subst hcb
      have hnd' : (pc ++ a :: suf1).Nodup := (List.nodup_cons.mp hnd).2
      obtain ⟨h1', h2'⟩ := ih hnd' rfl htl
      exact ⟨by rw [h1'], h2'⟩

/-! ### Characterisation of the probe traces of the three loops -/

/-- Every identifier probed by the race loop splits the id list at its
own position, with every earlier id valid (the loop only advances past
valid ids). -/
theorem probeRaces_probes_chars (o : String → ProbeOutcome) :
    ∀ (ids : List String) (id : String), id ∈ (probeRaces o ids).1 →
      ∃ pre suf, ids = pre ++ id :: suf ∧ ∀ j ∈ pre, is_valid_race (o j) = true := by
  intro ids
  induction ids with
  | nil => intro id h; simp [probeRaces] at h
  | cons a rest ih =>
    intro id h
    cases ha : is_valid_race (o a) with
    | true =>
      simp only [probeRaces, ha, if_true] at h
      rcases List.mem_cons.mp h with rfl | h
      · exact ⟨[], rest, rfl, by simp⟩
      · obtain ⟨pre, suf, heq, halive⟩ := ih id h
        refine ⟨a :: pre, suf, by rw [heq]; rfl, ?_⟩
        intro j hj
        rcases List.mem_cons.mp hj with rfl | hj
        · exact ha
        · exact halive j hj
    | false =>
      simp only [probeRaces, ha, Bool.false_eq_true, if_false,
        List.mem_singleton] at h
      subst h
      exact ⟨[], rest, rfl, by simp⟩

/-- Every identifier probed by the day loop is either the first race of
some day in the list — with every earlier day's first race valid — or a
race 2..12 of such a day whose first race was valid. -/
theorem probeDays_probes_chars (o : String → ProbeOutcome) (y : Nat) (p : String)
    (kai : Nat) :
    ∀ (ds : List Nat) (id : String), id ∈ (probeDays o y p kai ds).1 →
      ∃ preD dj sufD, ds = preD ++ dj :: sufD
        ∧ (∀ j ∈ preD, is_valid_race (o (mkRaceId y p kai j 1)) = true)
        ∧ (id = mkRaceId y p kai dj 1
           ∨ (is_valid_race (o (mkRaceId y p kai dj 1)) = true
              ∧ id ∈ (probeRaces o (raceIdsFrom2 y p kai dj)).1)) := by
  intro ds
  induction ds with
  | nil => intro id h; simp [probeDays] at h
  | cons d rest ih =>
    intro id h
    cases hd : is_valid_race (o (mkRaceId y p kai d 1)) with
    | true =>
      simp only [probeDays, hd, if_true] at h
      rcases List.mem_cons.mp h with rfl | h
      · exact ⟨[], d, rest, rfl, by simp, Or.inl rfl⟩
      rcases List.mem_append.mp h with h | h
      · exact ⟨[], d, rest, rfl, by simp, Or.inr ⟨hd, h⟩⟩
      · obtain ⟨preD, dj, sufD, heq, halive, hbody⟩ := ih id h
        refine ⟨d :: preD, dj, sufD, by rw [heq]; rfl, ?_, hbody⟩
        intro j hj
        rcases List.mem_cons.mp hj with rfl | hj
        · exact hd
        · exact halive j hj
    | false =>
      simp only [probeDays, hd, Bool.false_eq_true, if_false,
        List.mem_singleton] at h
      subst h
      exact ⟨[], d, rest, rfl, by simp, Or.inl rfl⟩

/-- Every identifier probed by the meeting loop is either the first id
of some meeting in the list — with every earlier meeting's first id
valid — or belongs to the day-1 race loop or the day loop of such a
meeting whose first id was valid. -/
theorem probeMeetings_probes_chars (o : String → ProbeOutcome) (y : Nat)
    (p : String) :
    ∀ (ms : List Nat) (id : String), id ∈ (probeMeetings o y p ms).1 →
      ∃ preM k sufM, ms = preM ++ k :: sufM
        ∧ (∀ j ∈ preM, is_valid_race (o (mkRaceId y p j 1 1)) = true)
        ∧ (id = mkRaceId y p k 1 1
           ∨ (is_valid_race (o (mkRaceId y p k 1 1)) = true
              ∧ (id ∈ (probeRaces o (raceIdsFrom2 y p k 1)).1
                 ∨ id ∈ (probeDays o y p k days2to12).1))) := by
  intro ms
  induction ms with
  | nil => intro id h; simp [probeMeetings] at h
  | cons k rest ih =>
    intro id h
    cases hk : is_valid_race (o (mkRaceId y p k 1 1)) with
    | true =>
      simp only [probeMeetings, hk, if_true] at h
      rcases List.mem_cons.mp h with rfl | h
      · exact ⟨[], k, rest, rfl, by simp, Or.inl rfl⟩
      rcases List.mem_append.mp h with h | h
      · exact ⟨[], k, rest, rfl, by simp, Or.inr ⟨hk, Or.inl h⟩⟩
      rcases List.mem_append.mp h with h | h
      · exact ⟨[], k, rest, rfl, by simp, Or.inr ⟨hk, Or.inr h⟩⟩
      · obtain ⟨preM, k', sufM, heq, halive, hbody⟩ := ih id h
        refine ⟨k :: preM, k', sufM, by rw [heq]; rfl, ?_, hbody⟩
        intro j hj
        rcases List.mem_cons.mp hj with rfl | hj
        · exact hk
        · exact halive j hj
    | false =>
      simp only [probeMeetings, hk, Bool.false_eq_true, if_false,
        List.mem_singleton] at h
      subst h
      exact ⟨[], k, rest, rfl, by simp, Or.inl rfl⟩

/-! ### Forward (reachability) lemmas -/

/-- The day loop always probes the first race of the head day. -/
theorem probeDays_head_probed (o : String → ProbeOutcome) (y : Nat) (p : String)
    (kai d : Nat) (rest : List Nat) :
    mkRaceId y p kai d 1 ∈ (probeDays o y p kai (d :: rest)).1 := by
  cases hd : is_valid_race (o (mkRaceId y p kai d 1)) <;>
    simp [probeDays, hd]

/-- If all days of a prefix have valid first races, probes of the rest
of the day loop are probes of the whole loop. -/
theorem probeDays_mem_append (o : String → ProbeOutcome) (y : Nat) (p : String)
    (kai : Nat) (preD rest : List Nat)
    (halive : ∀ j ∈ preD, is_valid_race (o (mkRaceId y p kai j 1)) = true)
    (id : String) (h : id ∈ (probeDays o y p kai rest).1) :
    id ∈ (probeDays o y p kai (preD ++ rest)).1 := by
  induction preD with
  | nil => simpa using h
  | cons d pd ih =>
    have hd : is_valid_race (o (mkRaceId y p kai d 1)) = true :=
      halive d (List.mem_cons_self d pd)
    simp only [List.cons_append, probeDays, hd, if_true, List.mem_cons,
      List.mem_append]
    right; right
    exact ih (fun j hj => halive j (List.mem_cons_of_mem d hj))

/-- If all meetings of a prefix have valid first ids, probes of the rest
of the meeting loop are probes of the whole loop. -/
theorem probeMeetings_mem_append (o : String → ProbeOutcome) (y : Nat)
    (p : String) (preM rest : List Nat)
    (halive : ∀ j ∈ preM, is_valid_race (o (mkRaceId y p j 1 1)) = true)
    (id : String) (h : id ∈ (probeMeetings o y p rest).1) :
    id ∈ (probeMeetings o y p (preM ++ rest)).1 := by
  induction preM with
  | nil => simpa using h
  | cons k pm ih =>
    have hk : is_valid_race (o (mkRaceId y p k 1 1)) = true :=
      halive k (List.mem_cons_self k pm)
    simp only [List.cons_append, probeMeetings, hk, if_true, List.mem_cons,
      List.mem_append]
    right; right; right
    exact ih (fun j hj => halive j (List.mem_cons_of_mem k hj))

/-- When a meeting's first id is valid, every probe of its day loop is a
probe of the meeting loop starting at that meeting. -/
theorem probeMeetings_mem_of_days (o : String → ProbeOutcome) (y : Nat)
    (p : String) (kai : Nat) (rest : List Nat)
    (hk : is_valid_race (o (mkRaceId y p kai 1 1)) = true)
    (id : String) (h : id ∈ (probeDays o y p kai days2to12).1) :
    id ∈ (probeMeetings o y p (kai :: rest)).1 := by
  simp only [probeMeetings, hk, if_true, List.mem_cons, List.mem_append]
  right; right; left
  exact h

/-! ### Membership facts -/

theorem mem_meetings_iff (a : Nat) : a ∈ meetings1to6 ↔ 1 ≤ a ∧ a ≤ 6 := by
  rw [meetings1to6_eq, mem_range'_iff]; omega

theorem mem_days_iff (a : Nat) : a ∈ days2to12 ↔ 2 ≤ a ∧ a ≤ 12 := by
  rw [days2to12_eq, mem_range'_iff]; omega

theorem mem_races_iff (a : Nat) : a ∈ races2to12 ↔ 2 ≤ a ∧ a ≤ 12 := by
  rw [races2to12_eq, mem_range'_iff]; omega

theorem mem_raceIdsFrom2 (y : Nat) (p : String) (kai day : Nat) (id : String) :
    id ∈ raceIdsFrom2 y p kai day
      ↔ ∃ rn, rn ∈ races2to12 ∧ id = mkRaceId y p kai day rn := by
  simp only [raceIdsFrom2, List.mem_map]
  constructor
  · rintro ⟨rn, hrn, rfl⟩; exact ⟨rn, hrn, rfl⟩
  · rintro ⟨rn, hrn, rfl⟩; exact ⟨rn, hrn, rfl⟩

theorem probeRaces_probes_sub (o : String → ProbeOutcome) (ids : List String)
    (id : String) (h : id ∈ (probeRaces o ids).1) : id ∈ ids := by
  obtain ⟨pre, suf, heq, -⟩ := probeRaces_probes_chars o ids id h
  rw [heq]; simp

theorem mem_generateProbes (o : String → ProbeOutcome) (y : Nat)
    (places : List String) (id : String) :
    id ∈ generateProbes o y places
      ↔ ∃ q ∈ places, id ∈ (probeMeetings o y q meetings1to6).1 := by
  simp only [generateProbes, List.mem_flatten, List.mem_map]
  constructor
  · rintro ⟨l, ⟨q, hq, rfl⟩, hid⟩; exact ⟨q, hq, hid⟩
  · rintro ⟨q, hq, hid⟩; exact ⟨_, ⟨q, hq, rfl⟩, hid⟩

theorem mem_generate (o : String → ProbeOutcome) (y : Nat)
    (places : List String) (id : String) :
    id ∈ generate_race_ids_efficiently o y places
      ↔ ∃ q ∈ places, id ∈ (probeMeetings o y q meetings1to6).2 := by
  simp only [generate_race_ids_efficiently, List.mem_flatten, List.mem_map]
  constructor
  · rintro ⟨l, ⟨q, hq, rfl⟩, hid⟩; exact ⟨q, hq, hid⟩
  · rintro ⟨q, hq, hid⟩; exact ⟨_, ⟨q, hq, rfl⟩, hid⟩

/-- Every identifier probed at a place has the encoded in-range shape. -/
theorem probeMeetings_shape (o : String → ProbeOutcome) (y : Nat) (q : String)
    (id : String) (h : id ∈ (probeMeetings o y q meetings1to6).1) :
    ∃ k dd rr, id = mkRaceId y q k dd rr ∧ 1 ≤ k ∧ k ≤ 6
      ∧ 1 ≤ dd ∧ dd ≤ 12 ∧ 1 ≤ rr ∧ rr ≤ 12 := by
  obtain ⟨preM, k, sufM, heqM, -, hbody⟩ := probeMeetings_probes_chars o y q _ id h
  have hk : k ∈ meetings1to6 := by rw [heqM]; simp
  obtain ⟨hk1, hk6⟩ := (mem_meetings_iff k).mp hk
  rcases hbody with rfl | ⟨-, hsub | hsub⟩
  · exact ⟨k, 1, 1, rfl, hk1, hk6, by omega, by omega, by omega, by omega⟩
  · have := probeRaces_probes_sub o _ id hsub
    obtain ⟨rn, hrn, rfl⟩ := (mem_raceIdsFrom2 y q k 1 id).mp this
    obtain ⟨hr2, hr12⟩ := (mem_races_iff rn).mp hrn
    exact ⟨k, 1, rn, rfl, hk1, hk6, by omega, by omega, by omega, by omega⟩
  · obtain ⟨preD, dj, sufD, heqD, -, hbodyD⟩ :=
      probeDays_probes_chars o y q k _ id hsub
    have hdj : dj ∈ days2to12 := by rw [heqD]; simp
    obtain ⟨hd2, hd12⟩ := (mem_days_iff dj).mp hdj
    rcases hbodyD with rfl | ⟨-, hsubR⟩
    · exact ⟨k, dj, 1, rfl, hk1, hk6, by omega, by omega, by omega, by omega⟩
    · have := probeRaces_probes_sub o _ id hsubR
      obtain ⟨rn, hrn, rfl⟩ := (mem_raceIdsFrom2 y q k dj id).mp this
      obtain ⟨hr2, hr12⟩ := (mem_races_iff rn).mp hrn
      exact ⟨k, dj, rn, rfl, hk1, hk6, by omega, by omega, by omega, by omega⟩

/-! ### Emitted identifiers are a subset of the probed ones and all valid -/

theorem probeRaces_emits_sub (o : String → ProbeOutcome) :
    ∀ (ids : List String) (id : String), id ∈ (probeRaces o ids).2 →
      id ∈ (probeRaces o ids).1 := by
  intro ids
  induction ids with
  | nil => intro id h; simp [probeRaces] at h
  | cons a rest ih =>
    intro id h
    cases ha : is_valid_race (o a) <;>
      simp only [probeRaces, ha, Bool.false_eq_true, if_true, if_false,
        List.mem_cons, List.mem_singleton] at h ⊢
    · simp at h
    · rcases h with rfl | h
      · left; rfl
      · right; exact ih id h

theorem probeRaces_emits_alive (o : String → ProbeOutcome) :
    ∀ (ids : List String) (id : String), id ∈ (probeRaces o ids).2 →
      is_valid_race (o id) = true := by
  intro ids
  induction ids with
  | nil => intro id h; simp [probeRaces] at h
  | cons a rest ih =>
    intro id h
    cases ha : is_valid_race (o a) <;>
      simp only [probeRaces, ha, Bool.false_eq_true, if_true, if_false,
        List.mem_cons] at h
    · simp at h
    · rcases h with rfl | h
      · exact ha
      · exact ih id h

theorem probeDays_emits_sub (o : String → ProbeOutcome) (y : Nat) (p : String)
    (kai : Nat) :
    ∀ (ds : List Nat) (id : String), id ∈ (probeDays o y p kai ds).2 →
      id ∈ (probeDays o y p kai ds).1 := by
  intro ds
  induction ds with
  | nil => intro id h; simp [probeDays] at h
  | cons d rest ih =>
    intro id h
    cases hd : is_valid_race (o (mkRaceId y p kai d 1)) <;>
      simp only [probeDays, hd, Bool.false_eq_true, if_true, if_false,
        List.mem_cons, List.mem_append] at h ⊢
    · simp at h
    · rcases h with rfl | h | h
      · left; rfl
      · right; left; exact probeRaces_emits_sub o _ id h
      · right; right; exact ih id h

theorem probeDays_emits_alive (o : String → ProbeOutcome) (y : Nat) (p : String)
    (kai : Nat) :
    ∀ (ds : List Nat) (id : String), id ∈ (probeDays o y p kai ds).2 →
      is_valid_race (o id) = true := by
  intro ds
  induction ds with
  | nil => intro id h; simp [probeDays] at h
  | cons d rest ih =>
    intro id h
    cases hd : is_valid_race (o (mkRaceId y p kai d 1)) <;>
      simp only [probeDays, hd, Bool.false_eq_true, if_true, if_false,
        List.mem_cons, List.mem_append] at h
    · simp at h
    · rcases h with rfl | h | h
      · exact hd
      · exact probeRaces_emits_alive o _ id h
      · exact ih id h

theorem probeMeetings_emits_sub (o : String → ProbeOutcome) (y : Nat)
    (p : String) :
    ∀ (ms : List Nat) (id : String), id ∈ (probeMeetings o y p ms).2 →
      id ∈ (probeMeetings o y p ms).1 := by
  intro ms
  induction ms with
  | nil => intro id h; simp [probeMeetings] at h
  | cons k rest ih =>
    intro id h
    cases hk : is_valid_race (o (mkRaceId y p k 1 1)) <;>
      simp only [probeMeetings, hk, Bool.false_eq_true, if_true, if_false,
        List.mem_cons, List.mem_append] at h ⊢
    · simp at h
    · rcases h with rfl | h | h | h
      · left; rfl
      · right; left; exact probeRaces_emits_sub o _ id h
      · right; right; left; exact probeDays_emits_sub o y p k _ id h
      · right; right; right; exact ih id h

theorem probeMeetings_emits_alive (o : String → ProbeOutcome) (y : Nat)
    (p : String) :
    ∀ (ms : List Nat) (id : String), id ∈ (probeMeetings o y p ms).2 →
      is_valid_race (o id) = true := by
  intro ms
  induction ms with
  | nil => intro id h; simp [probeMeetings] at h
  | cons k rest ih =>
    intro id h
    cases hk : is_valid_race (o (mkRaceId y p k 1 1)) <;>
      simp only [probeMeetings, hk, Bool.false_eq_true, if_true, if_false,
        List.mem_cons, List.mem_append] at h
    · simp at h
    · rcases h with rfl | h | h | h
      · exact hk
      · exact probeRaces_emits_alive o _ id h
      · exact probeDays_emits_alive o y p k _ id h
      · exact ih id h

/-- Every identifier that escapes an element-split of a `Pairwise (· < ·)`
list below the split element lies in the prefix. -/
theorem mem_pre_of_lt {l preL sufL : List Nat} {m k : Nat}
    (hpw : List.Pairwise (· < ·) l) (heq : l = preL ++ k :: sufL)
    (hmem : m ∈ l) (hlt : m < k) : m ∈ preL := by
  subst heq
  rcases List.mem_append.mp hmem with h | h
  · exact h
  · rcases List.mem_cons.mp h with rfl | h
    · omega
    · obtain ⟨-, pw2, -⟩ := List.pairwise_append.mp hpw
      have := (List.pairwise_cons.mp pw2).1 m h
      omega

/-- C2: the pruning invariant.  For every oracle, year and place subset:
once `(place, meeting m, day 1, race 1)` is Absent, no identifier of
meeting `m` other than that first one, and no identifier of any later
meeting `m' > m` at that place, is ever probed that year; and once
`(place, meeting m, day d, race 1)` is Absent, no race 2..12 of that day
is ever probed. -/
theorem pruning_invariant (o : String → ProbeOutcome) (year : Nat)
    (places : List String) (p : String)
    (hplaces : ∀ q ∈ places, q ∈ PLACE_CODES) (hp : p ∈ places) :
    (∀ m m' d' r', 1 ≤ m → m ≤ 6 → 1 ≤ m' → m' ≤ 6 → 1 ≤ d' → d' ≤ 12 →
       1 ≤ r' → r' ≤ 12 →
       is_valid_race (o (mkRaceId year p m 1 1)) = false →
       (m < m' ∨ (m' = m ∧ ¬(d' = 1 ∧ r' = 1))) →
       mkRaceId year p m' d' r' ∉ generateProbes o year places)
    ∧ (∀ m d r', 1 ≤ m → m ≤ 6 → 1 ≤ d → d ≤ 12 → 2 ≤ r' → r' ≤ 12 →
       is_valid_race (o (mkRaceId year p m d 1)) = false →
       mkRaceId year p m d r' ∉ generateProbes o year places) := by
  have hplen : p.data.length = 2 := place_codes_length (hplaces p hp)
  constructor
  · intro m m' d' r' hm1 hm2 hm'1 hm'2 hd'1 hd'2 hr'1 hr'2 habs hdisj hmem
    obtain ⟨q, hq, hmemq⟩ := (mem_generateProbes o year places _).mp hmem
    obtain ⟨k, dd, rr, heq, hk1, hk6, hdd1, hdd12, hrr1, hrr12⟩ :=
      probeMeetings_shape o year q _ hmemq
    obtain ⟨hpq, -, -, -⟩ := mkRaceId_inj year p q m' d' r' k dd rr hplen
      (by omega) (by omega) (by omega) (by omega) (by omega) (by omega) heq
    subst hpq
    obtain ⟨preM, k0, sufM, heqM, haliveM, hbody⟩ :=
      probeMeetings_probes_chars o year p _ _ hmemq
    have hpw : List.Pairwise (· < ·) meetings1to6 := by decide
    have hmm : m ∈ meetings1to6 := (mem_meetings_iff m).mpr ⟨hm1, hm2⟩
    have hk0mem : k0 ∈ meetings1to6 := by rw [heqM]; simp
    obtain ⟨hk01, hk06⟩ := (mem_meetings_iff k0).mp hk0mem
    rcases hbody with hbodyEq | ⟨hk0alive, hsub⟩
    · obtain ⟨-, hm'k0, hd'eq, hr'eq⟩ :=
        mkRaceId_inj year p p m' d' r' k0 1 1 hplen
          (by omega) (by omega) (by omega) (by omega) (by omega) (by omega) hbodyEq
      rcases hdisj with hlt | ⟨heqm, hne⟩
      · have hmpre : m ∈ preM := mem_pre_of_lt hpw heqM hmm (by omega)
        have halivem := haliveM m hmpre
        rw [habs] at halivem
        exact absurd halivem (by decide)
      · exact hne ⟨hd'eq, hr'eq⟩
    · have hm'k0 : m' = k0 := by
        rcases hsub with hsub | hsub
        · have hmemids := probeRaces_probes_sub o _ _ hsub
          obtain ⟨rn, hrn, heq2⟩ := (mem_raceIdsFrom2 year p k0 1 _).mp hmemids
          obtain ⟨hrn2, hrn12⟩ := (mem_races_iff rn).mp hrn
          exact (mkRaceId_inj year p p m' d' r' k0 1 rn hplen
            (by omega) (by omega) (by omega) (by omega) (by omega) (by omega) heq2).2.1
        · obtain ⟨preD, dj, sufD, heqD, haliveD, hbodyD⟩ :=
            probeDays_probes_chars o year p k0 _ _ hsub
          have hdjmem : dj ∈ days2to12 := by rw [heqD]; simp
          obtain ⟨hdj2, hdj12⟩ := (mem_days_iff dj).mp hdjmem
          rcases hbodyD with heq2 | ⟨-, hsubR⟩
          · exact (mkRaceId_inj year p p m' d' r' k0 dj 1 hplen
              (by omega) (by omega) (by omega) (by omega) (by omega) (by omega) heq2).2.1
          · have hmemids := probeRaces_probes_sub o _ _ hsubR
            obtain ⟨rn, hrn, heq2⟩ := (mem_raceIdsFrom2 year p k0 dj _).mp hmemids
            obtain ⟨hrn2, hrn12⟩ := (mem_races_iff rn).mp hrn
            exact (mkRaceId_inj year p p m' d' r' k0 dj rn hplen
              (by omega) (by omega) (by omega) (by omega) (by omega) (by omega) heq2).2.1
      rcases hdisj with hlt | ⟨heqm, -⟩
      · have hmpre : m ∈ preM := mem_pre_of_lt hpw heqM hmm (by omega)
        have halivem := haliveM m hmpre
        rw [habs] at halivem
        exact absurd halivem (by decide)
      · have hk0m : k0 = m := by omega
        rw [hk0m] at hk0alive
        rw [habs] at hk0alive
        exact absurd hk0alive (by decide)
  · intro m d r' hm1 hm2 hd1 hd2 hr'2 hr'12 habs hmem
    obtain ⟨q, hq, hmemq⟩ := (mem_generateProbes o year places _).mp hmem
    obtain ⟨k, dd, rr, heq, hk1, hk6, hdd1, hdd12, hrr1, hrr12⟩ :=
      probeMeetings_shape o year q _ hmemq
    obtain ⟨hpq, -, -, -⟩ := mkRaceId_inj year p q m d r' k dd rr hplen
      (by omega) (by omega) (by omega) (by omega) (by omega) (by omega) heq
    subst hpq
    obtain ⟨preM, k0, sufM, heqM, haliveM, hbody⟩ :=
      probeMeetings_probes_chars o year p _ _ hmemq
    have hk0mem : k0 ∈ meetings1to6 := by rw [heqM]; simp
    obtain ⟨hk01, hk06⟩ := (mem_meetings_iff k0).mp hk0mem
    rcases hbody with hbodyEq | ⟨hk0alive, hsub⟩
    · obtain ⟨-, -, -, hr'eq⟩ :=
        mkRaceId_inj year p p m d r' k0 1 1 hplen
          (by omega) (by omega) (by omega) (by omega) (by omega) (by omega) hbodyEq
      omega
    · rcases hsub with hsub | hsub
      · have hmemids := probeRaces_probes_sub o _ _ hsub
        obtain ⟨rn, hrn, heq2⟩ := (mem_raceIdsFrom2 year p k0 1 _).mp hmemids
        obtain ⟨hrn2, hrn12⟩ := (mem_races_iff rn).mp hrn
        obtain ⟨-, hmk0, hdeq, -⟩ := mkRaceId_inj year p p m d r' k0 1 rn hplen
          (by omega) (by omega) (by omega) (by omega) (by omega) (by omega) heq2
        rw [hmk0, hdeq] at habs
        rw [habs] at hk0alive
        exact absurd hk0alive (by decide)
      · obtain ⟨preD, dj, sufD, heqD, haliveD, hbodyD⟩ :=
          probeDays_probes_chars o year p k0 _ _ hsub
        have hdjmem : dj ∈ days2to12 := by rw [heqD]; simp
        obtain ⟨hdj2, hdj12⟩ := (mem_days_iff dj).mp hdjmem
        rcases hbodyD with heq2 | ⟨hdjalive, hsubR⟩
        · obtain ⟨-, -, -, hr'eq⟩ := mkRaceId_inj year p p m d r' k0 dj 1 hplen
            (by omega) (by omega) (by omega) (by omega) (by omega) (by omega) heq2
          omega
        · have hmemids := probeRaces_probes_sub o _ _ hsubR
          obtain ⟨rn, hrn, heq2⟩ := (mem_raceIdsFrom2 year p k0 dj _).mp hmemids
          obtain ⟨hrn2, hrn12⟩ := (mem_races_iff rn).mp hrn
          obtain ⟨-, hmk0, hdeq, -⟩ := mkRaceId_inj year p p m d r' k0 dj rn hplen
            (by omega) (by omega) (by omega) (by omega) (by omega) (by omega) heq2
          rw [hmk0, hdeq] at habs
          rw [habs] at hdjalive
          exact absurd hdjalive (by decide)

/-- Witness for C2: with an oracle that answers Absent everywhere,
meeting 1's first probe is Absent and meeting 2's first identifier is
never probed, nor is race 2 of meeting 1 day 1. -/
theorem pruning_invariant_witness :
    ((∀ q ∈ ["05"], q ∈ PLACE_CODES) ∧ "05" ∈ ["05"]
      ∧ is_valid_race ((fun _ => absentPage) "202405010101") = false)
    ∧ mkRaceId 2024 "05" 2 1 1 ∉ generateProbes (fun _ => absentPage) 2024 ["05"]
    ∧ mkRaceId 2024 "05" 1 1 2 ∉ generateProbes (fun _ => absentPage) 2024 ["05"] :=
  ⟨by decide,
   (pruning_invariant (fun _ => absentPage) 2024 ["05"] "05" (by decide)
      (by decide)).1 1 2 1 1 (by decide) (by decide) (by decide) (by decide)
      (by decide) (by decide) (by decide) (by decide) (by decide) (Or.inl (by decide)),
   (pruning_invariant (fun _ => absentPage) 2024 ["05"] "05" (by decide)
      (by decide)).2 1 1 2 (by decide) (by decide) (by decide) (by decide)
      (by decide) (by decide) (by decide)⟩

/-! ### Race-loop positional lemmas -/

theorem raceIdsFrom2_nodup (y : Nat) (p : String) (kai day : Nat)
    (hplen : p.data.length = 2) (hk : kai < 100) (hd : day < 100) :
    (raceIdsFrom2 y p kai day).Nodup := by
  have hpw : List.Pairwise (fun a b => 2 ≤ a ∧ a < b ∧ b ≤ 12) races2to12 := by decide
  show List.Pairwise (· ≠ ·) _
  refine hpw.map _ (fun a b hab heq => ?_)
  obtain ⟨h1, h2, h3⟩ := hab
  obtain ⟨-, -, -, hr⟩ := mkRaceId_inj y p p kai day a kai day b hplen
    hk hd (by omega) hk hd (by omega) heq
  omega

/-- If race `r''` of a day was probed by the race loop, every earlier
race `r` (with `2 ≤ r < r''`) of that day answered valid. -/
theorem probeRaces_earlier_alive (o : String → ProbeOutcome) (y : Nat) (p : String)
    (kai day : Nat) (hplen : p.data.length = 2) (hk : kai < 100) (hd : day < 100)
    (r r'' : Nat) (hr2 : 2 ≤ r) (hlt : r < r'') (hr''12 : r'' ≤ 12)
    (hmem : mkRaceId y p kai day r'' ∈ (probeRaces o (raceIdsFrom2 y p kai day)).1) :
    is_valid_race (o (mkRaceId y p kai day r)) = true := by
  obtain ⟨preR, sufR, heqR, haliveR⟩ := probeRaces_probes_chars o _ _ hmem
  have hsplit : races2to12
      = List.range' 2 (r'' - 2) ++ r'' :: List.range' (r'' + 1) (2 + 11 - r'' - 1) := by
    rw [races2to12_eq]
    exact range'_split 2 11 r'' (by omega) (by omega)
  have hmap : raceIdsFrom2 y p kai day
      = (List.range' 2 (r'' - 2)).map (fun rn => mkRaceId y p kai day rn)
        ++ mkRaceId y p kai day r''
          :: (List.range' (r'' + 1) (2 + 11 - r'' - 1)).map
               (fun rn => mkRaceId y p kai day rn) := by
    rw [raceIdsFrom2, hsplit]
    simp
  obtain ⟨hpreEq, -⟩ := nodup_split_unique
    (raceIdsFrom2_nodup y p kai day hplen hk hd) heqR hmap
  have hrmem : mkRaceId y p kai day r ∈ preR := by
    rw [hpreEq]
    exact List.mem_map_of_mem _ ((mem_range'_iff r 2 (r'' - 2)).mpr (by omega))
  exact haliveR _ hrmem

/-- C5: race-level pruning continues to the next day.  If the probe of
race `r` (2 ≤ r ≤ 12) of a day was issued and answered Absent, then no
race `r'' > r` of that day is ever probed, while race 1 of the next day
of the same meeting (when one exists, `d ≤ 11`) is still probed. -/
theorem race_level_pruning (o : String → ProbeOutcome) (year : Nat)
    (places : List String) (p : String)
    (hplaces : ∀ q ∈ places, q ∈ PLACE_CODES) (hp : p ∈ places)
    (m d r : Nat) (hm1 : 1 ≤ m) (hm2 : m ≤ 6) (hd1 : 1 ≤ d) (hd2 : d ≤ 12)
    (hr2 : 2 ≤ r) (hr12 : r ≤ 12)
    (hprobe : mkRaceId year p m d r ∈ generateProbes o year places)
    (habs : is_valid_race (o (mkRaceId year p m d r)) = false) :
    (∀ r'', r < r'' → r'' ≤ 12 →
       mkRaceId year p m d r'' ∉ generateProbes o year places)
    ∧ (d ≤ 11 → mkRaceId year p m (d + 1) 1 ∈ generateProbes o year places) := by
  have hplen : p.data.length = 2 := place_codes_length (hplaces p hp)
  constructor
  · intro r'' hlt hr''12 hmem
    obtain ⟨q, hq, hmemq⟩ := (mem_generateProbes o year places _).mp hmem
    obtain ⟨k, dd, rr, heq, hk1, hk6, hdd1, hdd12, hrr1, hrr12⟩ :=
      probeMeetings_shape o year q _ hmemq
    obtain ⟨hpq, -, -, -⟩ := mkRaceId_inj year p q m d r'' k dd rr hplen
      (by omega) (by omega) (by omega) (by omega) (by omega) (by omega) heq
    subst hpq
    obtain ⟨preM, k0, sufM, heqM, haliveM, hbody⟩ :=
      probeMeetings_probes_chars o year p _ _ hmemq
    have hk0mem : k0 ∈ meetings1to6 := by rw [heqM]; simp
    obtain ⟨hk01, hk06⟩ := (mem_meetings_iff k0).mp hk0mem
    rcases hbody with heq2 | ⟨hk0alive, hsub⟩
    · obtain ⟨-, -, -, hreq⟩ := mkRaceId_inj year p p m d r'' k0 1 1 hplen
        (by omega) (by omega) (by omega) (by omega) (by omega) (by omega) heq2
      omega
    · rcases hsub with hsub | hsub
      · have hmemids := probeRaces_probes_sub o _ _ hsub
        obtain ⟨rn, hrn, heq2⟩ := (mem_raceIdsFrom2 year p k0 1 _).mp hmemids
        obtain ⟨hrn2, hrn12⟩ := (mem_races_iff rn).mp hrn
        obtain ⟨-, hmk0, hdeq, -⟩ := mkRaceId_inj year p p m d r'' k0 1 rn hplen
          (by omega) (by omega) (by omega) (by omega) (by omega) (by omega) heq2
        subst hdeq
        rw [← hmk0] at hsub
        have := probeRaces_earlier_alive o year p m 1 hplen (by omega) (by omega)
          r r'' hr2 hlt hr''12 hsub
        rw [habs] at this
        exact absurd this (by decide)
      · obtain ⟨preD, dj, sufD, heqD, haliveD, hbodyD⟩ :=
          probeDays_probes_chars o year p k0 _ _ hsub
        have hdjmem : dj ∈ days2to12 := by rw [heqD]; simp
        obtain ⟨hdj2, hdj12⟩ := (mem_days_iff dj).mp hdjmem
        rcases hbodyD with heq2 | ⟨hdjalive, hsubR⟩
        · obtain ⟨-, -, -, hreq⟩ := mkRaceId_inj year p p m d r'' k0 dj 1 hplen
            (by omega) (by omega) (by omega) (by omega) (by omega) (by omega) heq2
          omega
        · have hmemids := probeRaces_probes_sub o _ _ hsubR
          obtain ⟨rn, hrn, heq2⟩ := (mem_raceIdsFrom2 year p k0 dj _).mp hmemids
          obtain ⟨hrn2, hrn12⟩ := (mem_races_iff rn).mp hrn
          obtain ⟨-, hmk0, hdeq, -⟩ := mkRaceId_inj year p p m d r'' k0 dj rn hplen
            (by omega) (by omega) (by omega) (by omega) (by omega) (by omega) heq2
          rw [← hmk0, ← hdeq] at hsubR
          have := probeRaces_earlier_alive o year p m d hplen (by omega) (by omega)
            r r'' hr2 hlt hr''12 hsubR
          rw [habs] at this
          exact absurd this (by decide)
  · intro hd11
    obtain ⟨q, hq, hmemq⟩ := (mem_generateProbes o year places _).mp hprobe
    obtain ⟨k, dd, rr, heq, hk1, hk6, hdd1, hdd12, hrr1, hrr12⟩ :=
      probeMeetings_shape o year q _ hmemq
    obtain ⟨hpq, -, -, -⟩ := mkRaceId_inj year p q m d r k dd rr hplen
      (by omega) (by omega) (by omega) (by omega) (by omega) (by omega) heq
    subst hpq
    obtain ⟨preM, k0, sufM, heqM, haliveM, hbody⟩ :=
      probeMeetings_probes_chars o year p _ _ hmemq
    have hk0mem : k0 ∈ meetings1to6 := by rw [heqM]; simp
    obtain ⟨hk01, hk06⟩ := (mem_meetings_iff k0).mp hk0mem
    rcases hbody with heq2 | ⟨hk0alive, hsub⟩
    · obtain ⟨-, -, -, hreq⟩ := mkRaceId_inj year p p m d r k0 1 1 hplen
        (by omega) (by omega) (by omega) (by omega) (by omega) (by omega) heq2
      omega
    · rcases hsub with hsub | hsub
      · have hmemids := probeRaces_probes_sub o _ _ hsub
        obtain ⟨rn, hrn, heq2⟩ := (mem_raceIdsFrom2 year p k0 1 _).mp hmemids
        obtain ⟨hrn2, hrn12⟩ := (mem_races_iff rn).mp hrn
        obtain ⟨-, hmk0, hdeq, -⟩ := mkRaceId_inj year p p m d r k0 1 rn hplen
          (by omega) (by omega) (by omega) (by omega) (by omega) (by omega) heq2
        apply (mem_generateProbes o year places _).mpr
        refine ⟨p, hp, ?_⟩
        rw [heqM]
        apply probeMeetings_mem_append o year p preM _ haliveM
        apply probeMeetings_mem_of_days o year p k0 sufM hk0alive
        rw [hmk0, hdeq]
        exact probeDays_head_probed o year p k0 (1 + 1) [3, 4, 5, 6, 7, 8, 9, 10, 11, 12]
      · obtain ⟨preD, dj, sufD, heqD, haliveD, hbodyD⟩ :=
          probeDays_probes_chars o year p k0 _ _ hsub
        have hdjmem : dj ∈ days2to12 := by rw [heqD]; simp
        obtain ⟨hdj2, hdj12⟩ := (mem_days_iff dj).mp hdjmem
        rcases hbodyD with heq2 | ⟨hdjalive, hsubR⟩
        · obtain ⟨-, -, -, hreq⟩ := mkRaceId_inj year p p m d r k0 dj 1 hplen
            (by omega) (by omega) (by omega) (by omega) (by omega) (by omega) heq2
          omega
        · have hmemids := probeRaces_probes_sub o _ _ hsubR
          obtain ⟨rn, hrn, heq2⟩ := (mem_raceIdsFrom2 year p k0 dj _).mp hmemids
          obtain ⟨hrn2, hrn12⟩ := (mem_races_iff rn).mp hrn
          obtain ⟨-, hmk0, hdeq, -⟩ := mkRaceId_inj year p p m d r k0 dj rn hplen
            (by omega) (by omega) (by omega) (by omega) (by omega) (by omega) heq2
          subst hdeq
          have hsplit : days2to12
              = List.range' 2 (d - 2) ++ d :: List.range' (d + 1) (2 + 11 - d - 1) := by
            rw [days2to12_eq]
            exact range'_split 2 11 d (by omega) (by omega)
          obtain ⟨-, hsufEq⟩ := nodup_split_unique
            (show days2to12.Nodup by decide) heqD hsplit
          have hsufCons : sufD = (d + 1) :: List.range' (d + 2) (11 - d) := by
            rw [hsufEq, show 2 + 11 - d - 1 = (11 - d) + 1 by omega, List.range'_succ]
          apply (mem_generateProbes o year places _).mpr
          refine ⟨p, hp, ?_⟩
          rw [heqM]
          apply probeMeetings_mem_append o year p preM _ haliveM
          apply probeMeetings_mem_of_days o year p k0 sufM hk0alive
          rw [heqD]
          apply probeDays_mem_append o year p k0 preD _ haliveD
          rw [hmk0]
          simp only [probeDays, hdjalive, if_true, List.mem_cons, List.mem_append]
          right; right
          rw [hsufCons]
          exact probeDays_head_probed o year p k0 (d + 1) (List.range' (d + 2) (11 - d))

/-- Witness for C5 in the end-to-end scenario: race 6 of meeting 1 day 1
is probed and Absent; race 7 of that day is never probed and race 1 of
day 2 is still probed. -/
theorem race_level_pruning_witness :
    ((∀ q ∈ ["05"], q ∈ PLACE_CODES)
      ∧ mkRaceId 2024 "05" 1 1 6 ∈ generateProbes c4oracle 2024 ["05"]
      ∧ is_valid_race (c4oracle (mkRaceId 2024 "05" 1 1 6)) = false)
    ∧ mkRaceId 2024 "05" 1 1 7 ∉ generateProbes c4oracle 2024 ["05"]
    ∧ mkRaceId 2024 "05" 1 2 1 ∈ generateProbes c4oracle 2024 ["05"] :=
  ⟨by decide,
   (race_level_pruning c4oracle 2024 ["05"] "05" (by decide) (by decide)
      1 1 6 (by decide) (by decide) (by decide) (by decide) (by decide) (by decide)
      (by decide) (by decide)).1 7 (by decide) (by decide),
   (race_level_pruning c4oracle 2024 ["05"] "05" (by decide) (by decide)
      1 1 6 (by decide) (by decide) (by decide) (by decide) (by decide) (by decide)
      (by decide) (by decide)).2 (by decide)⟩

/-! ### Scheduler lemmas -/

theorem processLoop_none_eq_filter (skip_ids : List String) (fetchOk : String → Bool) :
    ∀ (ids : List String) (c : Nat),
      processLoop skip_ids fetchOk none ids c
        = ids.filter (fun id => decide (id ∉ skip_ids)) := by
  intro ids
  induction ids with
  | nil => intro c; rfl
  | cons a rest ih =>
    intro c
    by_cases ha : a ∈ skip_ids
    · simp only [processLoop, if_pos ha, List.filter_cons]
      rw [ih c]
      simp [ha]
    · simp only [processLoop, if_neg ha, List.filter_cons]
      rw [ih (if fetchOk a then c + 1 else c)]
      simp [ha]

theorem mem_processLoop_none (skip_ids : List String) (fetchOk : String → Bool)
    (ids : List String) (c : Nat) (id : String) :
    id ∈ processLoop skip_ids fetchOk none ids c
      ↔ (id ∈ ids ∧ id ∉ skip_ids) := by
  rw [processLoop_none_eq_filter]
  simp [List.mem_filter]

theorem processLoop_eq_of_disjoint (skip_ids : List String) (fetchOk : String → Bool)
    (ids : List String) (c : Nat) (h : ∀ id ∈ ids, id ∉ skip_ids) :
    processLoop skip_ids fetchOk none ids c = ids := by
  rw [processLoop_none_eq_filter]
  apply List.filter_eq_self.mpr
  intro a ha
  simpa using h a ha

theorem loadAndReset_none (year : Nat) (places : List String) :
    loadAndReset year places none = ([], none) := rfl

/-- After the load-and-reset prelude, `skip_ids` and the on-disk file
hold the same entries. -/
theorem loadAndReset_file_eq_skip (year : Nat) (places : List String)
    (file : Option (List String)) :
    (loadAndReset year places file).2.getD [] = (loadAndReset year places file).1 := by
  cases file with
  | none => rfl
  | some lines =>
    show (loadAndReset year places (some lines)).2.getD []
      = (loadAndReset year places (some lines)).1
    simp only [loadAndReset]
    split
    · split
      · rfl
      · rfl
    · rfl

/-- Membership in the post-prelude skip set: an entry of the loaded file
that, when exactly one place is requested, does not carry that year's
and place's prefix. -/
theorem mem_loadAndReset_skip_some (year : Nat) (places : List String)
    (lines : List String) (id : String) :
    id ∈ (loadAndReset year places (some lines)).1
      ↔ (id ∈ lines ∧ (places.length = 1 →
          startswith id (pyStr year ++ places.headD "") = false)) := by
  simp only [loadAndReset]
  split
  · rename_i hl
    split
    · rename_i hpos
      rw [List.mem_filter]
      constructor
      · rintro ⟨h1, h2⟩
        refine ⟨h1, fun _ => ?_⟩
        simpa using h2
      · rintro ⟨h1, h2⟩
        refine ⟨h1, ?_⟩
        simpa using h2 hl
    · rename_i hpos
      have hempty : lines.filter
          (fun race_id => startswith race_id (pyStr year ++ places.headD "")) = [] := by
        cases hfe : lines.filter
            (fun race_id => startswith race_id (pyStr year ++ places.headD "")) with
        | nil => rfl
        | cons a l => rw [hfe] at hpos; simp at hpos
      constructor
      · intro h1
        refine ⟨h1, fun _ => ?_⟩
        by_contra hsw
        have hmemf : id ∈ lines.filter
            (fun race_id => startswith race_id (pyStr year ++ places.headD "")) := by
          rw [List.mem_filter]
          refine ⟨h1, ?_⟩
          cases hv : startswith id (pyStr year ++ places.headD "")
          · exact absurd hv hsw
          · rfl
        rw [hempty] at hmemf
        simp at hmemf
      · rintro ⟨h1, -⟩
        exact h1
  · rename_i hl
    constructor
    · intro h
      exact ⟨h, fun hc => absurd hc hl⟩
    · rintro ⟨h, -⟩
      exact h

/-- Membership in a finished run's progress file: the post-prelude skip
set union the emitted identifiers not already in it. -/
theorem mem_runFinal (o : String → ProbeOutcome) (fetchOk : String → Bool)
    (year : Nat) (places : List String) (file : Option (List String)) (id : String) :
    id ∈ runFinal o fetchOk year places file
      ↔ (id ∈ (loadAndReset year places file).1
         ∨ id ∈ generate_race_ids_efficiently o year places) := by
  unfold runFinal
  rw [List.mem_append, loadAndReset_file_eq_skip, mem_processLoop_none]
  constructor
  · rintro (h | ⟨h, -⟩)
    · left; exact h
    · right; exact h
  · rintro (h | h)
    · left; exact h
    · by_cases hs : id ∈ (loadAndReset year places file).1
      · left; exact hs
      · right; exact ⟨h, hs⟩

/-! ### The prefix structure of emitted identifiers -/

theorem startswith_mkRaceId (y : Nat) (p : String) (k d r : Nat) :
    startswith (mkRaceId y p k d r) (pyStr y ++ p) = true := by
  unfold startswith
  apply decide_eq_true
  have hpre : (pyStr y ++ p).data = (pyStr y).data ++ p.data := by
    simp [String.data_append]
  have hid : (mkRaceId y p k d r).data
      = ((pyStr y).data ++ p.data)
        ++ ((zfill2 k).data ++ ((zfill2 d).data ++ (zfill2 r).data)) := by
    rw [mkRaceId_data]
    simp [List.append_assoc]
  rw [hid, hpre]
  exact List.take_left' rfl

/-- Every identifier emitted by a single-place traversal starts with
`str(year) + place`. -/
theorem generate_startswith (o : String → ProbeOutcome) (year : Nat) (p : String) :
    ∀ id ∈ generate_race_ids_efficiently o year [p],
      startswith id (pyStr year ++ p) = true := by
  intro id h
  obtain ⟨q, hq, hm⟩ := (mem_generate o year [p] id).mp h
  have hq' : q = p := by simpa using hq
  subst hq'
  have hprobe := probeMeetings_emits_sub o year q _ id hm
  obtain ⟨k, dd, rr, rfl, -, -, -, -, -, -⟩ := probeMeetings_shape o year q id hprobe
  exact startswith_mkRaceId year q k dd rr

theorem loadAndReset_skip_cond (year : Nat) (places : List String)
    (file : Option (List String)) (id : String)
    (h : id ∈ (loadAndReset year places file).1) (hl : places.length = 1) :
    startswith id (pyStr year ++ places.headD "") = false := by
  cases file with
  | none => rw [loadAndReset_none] at h; simp at h
  | some lines =>
    exact ((mem_loadAndReset_skip_some year places lines id).mp h).2 hl

/-! ### Claim theorems: C3, C6, C9, C7 -/

/-- C3 (counterexample to the claim as stated): an identifier already in
the checkpoint store when the run starts IS re-probed — the generation
phase issues its probe without consulting the skip set. -/
theorem resume_reprobes_counterexample :
    "202405010101" ∈ (loadAndReset 2024 ["05", "06"] (some ["202405010101"])).1
    ∧ "202405010101"
        ∈ runProbeTrace c4oracle 2024 ["05", "06"] (some ["202405010101"]) := by
  decide

/-- C3 (amended): identifiers in the post-prelude skip set are never
re-processed (never fetched or re-appended) by the scheduling loop — the
generation phase re-probes regardless — and the final progress-file
content after an interrupt (after any `k` appends) and resume holds
exactly the entries of an uninterrupted run. -/
theorem resume_idempotence (o : String → ProbeOutcome) (fetchOk : String → Bool)
    (year : Nat) (places : List String) (file : Option (List String)) (k : Nat) :
    (∀ id ∈ (loadAndReset year places file).1,
       id ∉ processLoop (loadAndReset year places file).1 fetchOk none
              (generate_race_ids_efficiently o year places) 0)
    ∧ (∀ id, id ∈ runFinal o fetchOk year places
                (some (runInterrupted o fetchOk year places file k))
        ↔ id ∈ runFinal o fetchOk year places file) := by
  constructor
  · intro id hid hmem
    exact ((mem_processLoop_none _ _ _ _ _).mp hmem).2 hid
  · intro id
    rw [mem_runFinal, mem_runFinal]
    constructor
    · rintro (hskip | hV)
      · rw [mem_loadAndReset_skip_some] at hskip
        obtain ⟨hI, hC⟩ := hskip
        simp only [runInterrupted] at hI
        rcases List.mem_append.mp hI with h | h
        · left
          rw [loadAndReset_file_eq_skip] at h
          exact h
        · right
          exact ((mem_processLoop_none _ _ _ _ _).mp (List.mem_of_mem_take h)).1
      · right; exact hV
    · rintro (hL | hV)
      · left
        rw [mem_loadAndReset_skip_some]
        refine ⟨?_, fun hl => loadAndReset_skip_cond year places file id hL hl⟩
        simp only [runInterrupted]
        rw [List.mem_append]
        left
        rw [loadAndReset_file_eq_skip]
        exact hL
      · right; exact hV

/-- Witness for C3 (amended) in the end-to-end scenario with one prior
checkpoint entry of another place, interrupted after 2 appends. -/
theorem resume_idempotence_witness :
    ("202301010101" ∈ (loadAndReset 2024 ["05", "06"]
        (some ["202301010101"])).1)
    ∧ ("202301010101" ∉ processLoop
        (loadAndReset 2024 ["05", "06"] (some ["202301010101"])).1
        (fun _ => true) none
        (generate_race_ids_efficiently c4oracle 2024 ["05", "06"]) 0)
    ∧ ("202405010103" ∈ runFinal c4oracle (fun _ => true) 2024 ["05", "06"]
          (some (runInterrupted c4oracle (fun _ => true) 2024 ["05", "06"]
            (some ["202301010101"]) 2))
        ↔ "202405010103" ∈ runFinal c4oracle (fun _ => true) 2024 ["05", "06"]
            (some ["202301010101"])) :=
  ⟨by decide,
   (resume_idempotence c4oracle (fun _ => true) 2024 ["05", "06"]
      (some ["202301010101"]) 2).1 "202301010101" (by decide),
   (resume_idempotence c4oracle (fun _ => true) 2024 ["05", "06"]
      (some ["202301010101"]) 2).2 "202405010103"⟩

/-- C6 (counterexample to the claim as stated): an identifier whose
probe verdict is Absent is NOT checkpoint-appended (it never reaches the
scheduler), and a later run starting from the finished run's checkpoint
re-probes it. -/
theorem absent_checkpointed_counterexample :
    is_valid_race (c4oracle "202405010106") = false
    ∧ "202405010106" ∈ runProbeTrace c4oracle 2024 ["05"]
        (some (runFinal c4oracle (fun _ => true) 2024 ["05"] none))
    ∧ "202405010106" ∉ runFinal c4oracle (fun _ => true) 2024 ["05"] none := by
  decide

/-- C6 (amended): identifiers whose probe verdict is Absent are never
handed to the scheduler — every emitted identifier probed Present — the
processing loop checkpoint-appends exactly the emitted identifiers not
in the skip set, regardless of the fetch outcome, and the probe trace of
a later run is independent of the checkpoint contents. -/
theorem absent_never_scheduled (o : String → ProbeOutcome) (year : Nat)
    (places : List String) (skip_ids : List String) (fetchOk : String → Bool)
    (f1 f2 : Option (List String)) :
    (∀ id ∈ generate_race_ids_efficiently o year places,
       is_valid_race (o id) = true)
    ∧ (∀ id, id ∈ processLoop skip_ids fetchOk none
           (generate_race_ids_efficiently o year places) 0
        ↔ (id ∈ generate_race_ids_efficiently o year places ∧ id ∉ skip_ids))
    ∧ runProbeTrace o year places f1 = runProbeTrace o year places f2 := by
  refine ⟨?_, ?_, rfl⟩
  · intro id h
    obtain ⟨q, hq, hm⟩ := (mem_generate o year places id).mp h
    exact probeMeetings_emits_alive o year q _ id hm
  · intro id
    exact mem_processLoop_none _ _ _ _ _

/-- Witness for C6 (amended): in the end-to-end scenario the first
discovered identifier probed Present. -/
theorem absent_never_scheduled_witness :
    ("202405010101" ∈ generate_race_ids_efficiently c4oracle 2024 ["05"])
    ∧ is_valid_race (c4oracle "202405010101") = true :=
  ⟨by decide,
   (absent_never_scheduled c4oracle 2024 ["05"] [] (fun _ => true)
      none none).1 "202405010101" (by decide)⟩

/-- C9: when exactly one place is requested and a progress file exists,
the prelude of `scrape_races_by_id_pattern_efficient` — before any
probing and without any reset flag — drops from the skip set every entry
prefixed by `str(year) + place`, leaves the file holding exactly the
remaining entries, and consequently the place is re-processed from
scratch: the processing loop handles every generated identifier. -/
theorem single_place_reset (o : String → ProbeOutcome) (fetchOk : String → Bool)
    (year : Nat) (p : String) (lines : List String) :
    (∀ id, id ∈ (loadAndReset year [p] (some lines)).1
       ↔ (id ∈ lines ∧ startswith id (pyStr year ++ p) = false))
    ∧ (∀ id, id ∈ (loadAndReset year [p] (some lines)).2.getD []
       ↔ (id ∈ lines ∧ startswith id (pyStr year ++ p) = false))
    ∧ processLoop (loadAndReset year [p] (some lines)).1 fetchOk none
         (generate_race_ids_efficiently o year [p]) 0
       = generate_race_ids_efficiently o year [p] := by
  have hchar : ∀ id, id ∈ (loadAndReset year [p] (some lines)).1
      ↔ (id ∈ lines ∧ startswith id (pyStr year ++ p) = false) := by
    intro id
    rw [mem_loadAndReset_skip_some]
    constructor
    · rintro ⟨h1, h2⟩
      exact ⟨h1, h2 rfl⟩
    · rintro ⟨h1, h2⟩
      exact ⟨h1, fun _ => h2⟩
  refine ⟨hchar, ?_, ?_⟩
  · intro id
    rw [loadAndReset_file_eq_skip]
    exact hchar id
  · apply processLoop_eq_of_disjoint
    intro id hid hskip
    have hsw := generate_startswith o year p id hid
    have hns := (hchar id).mp hskip
    rw [hsw] at hns
    exact absurd hns.2 (by decide)

/-- Witness for C9 at a two-entry store: the entry of the requested
place/year is dropped, the other entry is kept, and the traversal's
emitted identifiers are all processed. -/
theorem single_place_reset_witness :
    ("202405010101" ∉ (loadAndReset 2024 ["05"]
        (some ["202405010101", "202301010101"])).1)
    ∧ ("202301010101" ∈ (loadAndReset 2024 ["05"]
        (some ["202405010101", "202301010101"])).1)
    ∧ processLoop (loadAndReset 2024 ["05"]
          (some ["202405010101", "202301010101"])).1 (fun _ => true) none
        (generate_race_ids_efficiently c4oracle 2024 ["05"]) 0
      = generate_race_ids_efficiently c4oracle 2024 ["05"] :=
  ⟨fun h => by
      have := ((single_place_reset c4oracle (fun _ => true) 2024 "05"
        ["202405010101", "202301010101"]).1 "202405010101").mp h
      revert this
      decide,
   ((single_place_reset c4oracle (fun _ => true) 2024 "05"
      ["202405010101", "202301010101"]).1 "202301010101").mpr (by decide),
   (single_place_reset c4oracle (fun _ => true) 2024 "05"
      ["202405010101", "202301010101"]).2.2⟩

/-- C7: the selective reset keeps a line — byte-for-byte, the very same
line, in order — exactly when its place code is not among the places to
reset; so only the requested places' entries are removed and every other
place's entry is preserved unchanged. -/
theorem reset_scoping (places : List String) (lines : List String) :
    (resetProgressLines places lines).Sublist lines
    ∧ (∀ l ∈ lines, places.contains (placeCodeOfLine l) = false →
        l ∈ resetProgressLines places lines)
    ∧ (∀ l ∈ resetProgressLines places lines,
        l ∈ lines ∧ places.contains (placeCodeOfLine l) = false) := by
  refine ⟨List.filter_sublist lines, ?_, ?_⟩
  · intro l hl hkeep
    rw [resetProgressLines, List.mem_filter]
    refine ⟨hl, ?_⟩
    simp only [List.contains, List.elem_eq_mem, decide_eq_false_iff_not] at hkeep
    simp [resetKeepLine, hkeep]
  · intro l hl
    rw [resetProgressLines, List.mem_filter] at hl
    obtain ⟨h1, h2⟩ := hl
    refine ⟨h1, ?_⟩
    simp only [resetKeepLine] at h2
    simp only [List.contains, List.elem_eq_mem, decide_eq_false_iff_not]
    simpa using h2

/-- Witness for C7: resetting place 05 on a two-line log removes the 05
line and keeps the other line byte-for-byte. -/
theorem reset_scoping_witness :
    ("202301010101\n" ∈ resetProgressLines ["05"]
        ["202405010101\n", "202301010101\n"])
    ∧ (resetProgressLines ["05"] ["202405010101\n", "202301010101\n"]).Sublist
        ["202405010101\n", "202301010101\n"] :=
  ⟨(reset_scoping ["05"] ["202405010101\n", "202301010101\n"]).2.1
      "202301010101\n" (by decide) (by decide),
   (reset_scoping ["05"] ["202405010101\n", "202301010101\n"]).1⟩

end KeibaScraper
